import Mathlib

/-!
Verification of the SymbolEx symbol extractor (main.cpp together with the
PracticString text-buffer library) against its natural-language design notes.

The development shallowly embeds the text-scanning core: source text is a
List Char, a cursor is a Nat index, machine integers are Nat with explicit
reductions modulo 2 ^ 64 (the C++ VerilogNumber is unsigned long long) or
bounds at 2 ^ 31 - 1 (int via std::stoi).  Functions that can throw a String
in the C++ return an Except carrying the message as a List Char; loops whose
termination the C++ does not guarantee take an explicit fuel argument and
return none when the fuel runs out.  File-system effects (directory listings,
deletions, writes) are modelled by passing the directory contents in as data
and collecting the writes in a list.
-/

/-- Decidable equality for Except results, so that concrete runs of the
model can be checked by decide. -/
instance {ε α : Type} [DecidableEq ε] [DecidableEq α] : DecidableEq (Except ε α) := fun x y =>
  match x, y with
  | Except.error a, Except.error b =>
    if h : a = b then isTrue (by rw [h]) else isFalse (fun hc => by cases hc; exact h rfl)
  | Except.ok a, Except.ok b =>
    if h : a = b then isTrue (by rw [h]) else isFalse (fun hc => by cases hc; exact h rfl)
  | Except.error _, Except.ok _ => isFalse (fun hc => by cases hc)
  | Except.ok _, Except.error _ => isFalse (fun hc => by cases hc)

namespace SymbolEx

/-- Characters the source treats as horizontal whitespace (String constant
whitespace = " \t" in main.cpp). -/
def whitespaceChars : List Char := " \t".toList

/-- Characters the source treats as line terminators (String constant
newline = "\n\r" in main.cpp). -/
def newlineChars : List Char := "\n\r".toList

/-- Length of the maximal run of characters satisfying p starting at index i;
models String.containsCharsAt / containsCharsAtWhere from PracticString.cpp,
which walk the buffer from the index while the test holds (0 when the index
is at or beyond the end). -/
def runLength (p : Char → Bool) (text : List Char) (i : Nat) : Nat :=
  ((text.drop i).takeWhile p).length

/-- The character at index i, if any. -/
def charAt (text : List Char) (i : Nat) : Option Char := text.get? i

/-- Models String.containsAnyCharAt / containsAnyCharAtBy: the index is in
range and the character there passes the test. -/
def containsAnyCharAt (p : Char → Bool) (text : List Char) (i : Nat) : Bool :=
  match text.get? i with
  | some c => p c
  | none => false

/-- Models String.containsAt(index, cstring): the index is at most the
length and the substring occurs there (the C++ walks the buffer and a
terminating NUL mismatches any substring character, so an overlong
substring fails). -/
def containsAt (text : List Char) (i : Nat) (sub : List Char) : Bool :=
  decide (i ≤ text.length) && sub.isPrefixOf (text.drop i)

/-- Models String.indexOf(substring, caseSensitive, start): the smallest
occurrence position at or after start, none when absent or when start is
beyond the end. -/
def indexOfFrom (sub text : List Char) (start : Nat) : Option Nat :=
  (List.range (text.length + 1)).find? (fun j => decide (start ≤ j) && containsAt text j sub)

/-- Models skipChar from main.cpp: consume one character drawn from chars if
present; the Bool is the C++ return value (found || not mandatory), the Nat
the updated cursor. -/
def skipChar (chars : List Char) (mandatory : Bool) (text : List Char) (i : Nat) : Bool × Nat :=
  let found := containsAnyCharAt (fun c => chars.contains c) text i
  (found || !mandatory, if found then i + 1 else i)

/-- Models skipChars from main.cpp: consume the maximal run of characters
drawn from chars. -/
def skipChars (chars : List Char) (mandatory : Bool) (text : List Char) (i : Nat) : Bool × Nat :=
  let len := runLength (fun c => chars.contains c) text i
  (decide (len ≠ 0) || !mandatory, i + len)

/-- Models skipLineCommentStart from main.cpp: consume a "//" marker. -/
def skipLineCommentStart (text : List Char) (i : Nat) : Bool × Nat :=
  if containsAt text i "//".toList then (true, i + 2) else (false, i)

/-- Models skipLineComment from main.cpp: a "//" marker, the rest of the
line, then any run of line terminators. -/
def skipLineComment (text : List Char) (i : Nat) : Bool × Nat :=
  match skipLineCommentStart text i with
  | (false, j) => (false, j)
  | (true, j) =>
    let len := runLength (fun c => !(newlineChars.contains c)) text j
    (true, (skipChars newlineChars false text (j + len)).2)

/-- Models skipGeneralComment from main.cpp: when a block-comment opener is
present the function reports success, but it moves the cursor only when the
closing marker is found later in the text. -/
def skipGeneralComment (text : List Char) (i : Nat) : Bool × Nat :=
  if containsAt text i "/*".toList then
    match indexOfFrom "*/".toList text i with
    | some e => (true, e + 2)
    | none => (true, i)
  else (false, i)

/-- One iteration of the while condition in skipBlank from main.cpp, with
the C++ short-circuit evaluation order. -/
def skipBlankBody (text : List Char) (i : Nat) : Bool × Nat :=
  let r1 := skipChars (whitespaceChars ++ newlineChars) true text i
  if r1.1 then r1 else
  let r2 := skipLineComment text r1.2
  if r2.1 then r2 else
  skipGeneralComment text r2.2

/-- Models the skipBlank loop from main.cpp (while any of the three skippers
reports progress, iterate).  The C++ loop has no fuel; the argument bounds
the number of iterations we are willing to unfold, and none means the bound
was reached without the loop exiting. -/
def skipBlank : Nat → List Char → Nat → Option Nat
  | 0, _, _ => none
  | fuel + 1, text, i =>
    let r := skipBlankBody text i
    if r.1 then skipBlank fuel text r.2 else some r.2

/-- Models radixChars from main.cpp: the character set the C++ associates
with each radix (the assert-false default returns the empty set). -/
def radixChars (radix : Nat) : List Char :=
  if radix = 2 then "01".toList
  else if radix = 8 then "01234567".toList
  else if radix = 10 then "0123456789".toList
  else if radix = 16 then "0123456789ABCDEFabcdef".toList
  else []

/-- Numeric value of a hexadecimal digit character, none for anything else. -/
def hexDigitVal (c : Char) : Option Nat :=
  if decide (48 ≤ c.toNat) && decide (c.toNat ≤ 57) then some (c.toNat - 48)
  else if decide (65 ≤ c.toNat) && decide (c.toNat ≤ 70) then some (c.toNat - 65 + 10)
  else if decide (97 ≤ c.toNat) && decide (c.toNat ≤ 102) then some (c.toNat - 97 + 10)
  else none

/-- Models tryStringToVerilogNumber from main.cpp, i.e. std::stoull applied
to the digit strings produced by readNumberValue (subsets of 0-9A-Fa-f, no
sign, no whitespace): stoull converts the longest leading run of digits
valid in the radix and fails (invalid_argument, caught as logic_error) when
that run is empty, or (out_of_range, also a logic_error) when its value
exceeds the 64-bit range of unsigned long long. -/
def stoullDigits (s : List Char) (radix : Nat) : Option Nat :=
  let ds := s.takeWhile (fun c => match hexDigitVal c with
    | some d => decide (d < radix)
    | none => false)
  if ds.isEmpty then none
  else
    let v := ds.foldl (fun a c => a * radix + ((hexDigitVal c).getD 0)) 0
    if v < 2 ^ 64 then some v else none

/-- Models tryStringToInt from main.cpp, i.e. std::stoi base 10 applied to
the nonempty all-decimal-digit strings produced by the bit-width readers:
it fails (out_of_range) exactly when the value exceeds INT_MAX. -/
def stoiDigits (s : List Char) : Option Nat :=
  if s.isEmpty then none
  else
    let v := s.foldl (fun a c => a * 10 + (c.toNat - 48)) 0
    if v ≤ 2 ^ 31 - 1 then some v else none

/-- Models String.substringFrom(start, length): the length-bounded slice
starting at the index. -/
def slice (text : List Char) (i len : Nat) : List Char := (text.drop i).take len

/-- Largest bit width of a verilog number the tool supports
(verilogNumberMaxBitWidth = 8 * sizeof(unsigned long long) in main.cpp). -/
def verilogNumberMaxBitWidth : Nat := 64

/-- Models readNumberBitWidth from main.cpp: a nonempty decimal digit run
converted with tryStringToInt; on failure the cursor is untouched. -/
def readNumberBitWidth (text : List Char) (i : Nat) : Option (Nat × Nat) :=
  let len := runLength (fun c => (radixChars 10).contains c) text i
  if len = 0 then none
  else
    match stoiDigits (slice text i len) with
    | none => none
    | some bw => some (bw, i + len)

/-- Lower-casing of a character as done by the C tolower in the C locale
(also the function PracticString installs as String.onToLower). -/
def toLowerChar (c : Char) : Char :=
  if decide (65 ≤ c.toNat) && decide (c.toNat ≤ 90) then Char.ofNat (c.toNat + 32) else c

/-- Models readNumberRadix from main.cpp: an apostrophe followed by a radix
letter, compared case-insensitively. -/
def readNumberRadix (text : List Char) (i : Nat) : Option (Nat × Nat) :=
  if charAt text i = some (Char.ofNat 39) then
    match charAt text (i + 1) with
    | none => none
    | some c =>
      if toLowerChar c = 'b' then some (2, i + 2)
      else if toLowerChar c = 'o' then some (8, i + 2)
      else if toLowerChar c = 'd' then some (10, i + 2)
      else if toLowerChar c = 'h' then some (16, i + 2)
      else none
  else none

/-- Models readNumberValue from main.cpp: the maximal run of characters
drawn from radixChars(16) plus the underscore separator - independently of
the declared radix - with underscores removed from the returned text. -/
def readNumberValue (text : List Char) (i : Nat) : Option (List Char × Nat) :=
  let len := runLength (fun c => (radixChars 16 ++ ['_']).contains c) text i
  if len = 0 then none
  else some ((slice text i len).filter (fun c => c ≠ '_'), i + len)

/-- First grammar attempted by readNumber: bit width, optional whitespace,
radix marker, optional whitespace, digit run.  Returns declared bit width,
radix, digit text and the cursor after the literal. -/
def numberGrammarSized (text : List Char) (i : Nat) : Option (Nat × Nat × List Char × Nat) :=
  match readNumberBitWidth text i with
  | none => none
  | some (bw, i1) =>
    let i2 := (skipChars whitespaceChars false text i1).2
    match readNumberRadix text i2 with
    | none => none
    | some (radix, i3) =>
      let i4 := (skipChars whitespaceChars false text i3).2
      match readNumberValue text i4 with
      | none => none
      | some (vt, i5) => some (bw, radix, vt, i5)

/-- Second grammar attempted by readNumber, from the original cursor (the
C++ resets ioIndex to startIndex before this attempt): radix marker,
optional whitespace, digit run; the bit width defaults to 32. -/
def numberGrammarUnsized (text : List Char) (i : Nat) : Option (Nat × Nat × List Char × Nat) :=
  match readNumberRadix text i with
  | none => none
  | some (radix, i1) =>
    let i2 := (skipChars whitespaceChars false text i1).2
    match readNumberValue text i2 with
    | none => none
    | some (vt, i3) => some (32, radix, vt, i3)

/-- Third grammar attempted by readNumber, again from the original cursor:
a bare digit run; bit width defaults to 32 and the radix to 10. -/
def numberGrammarPlain (text : List Char) (i : Nat) : Option (Nat × Nat × List Char × Nat) :=
  match readNumberValue text i with
  | none => none
  | some (vt, j) => some (32, 10, vt, j)

/-- Message thrown by readNumber in main.cpp (with %d already substituted
by verilogNumberMaxBitWidth = 64). -/
def numberErrorMsg : List Char :=
  "Value must be non-negative integer constant with max 64 bits size.".toList

/-- Models readNumber from main.cpp: try the three literal grammars in
order, resetting the cursor between attempts; then throw unless a grammar
matched, the declared bit width lies in 1..64 and the digit text converts
with stoull in the declared radix. -/
def readNumber (text : List Char) (i : Nat) : Except (List Char) (Nat × Nat) :=
  match numberGrammarSized text i <|> numberGrammarUnsized text i <|> numberGrammarPlain text i with
  | none => Except.error numberErrorMsg
  | some (bw, radix, vt, j) =>
    if bw < 1 ∨ verilogNumberMaxBitWidth < bw then Except.error numberErrorMsg
    else
      match stoullDigits vt radix with
      | none => Except.error numberErrorMsg
      | some v => Except.ok (v, j)

/-- Models bitWidthMask from main.cpp: starting from 0, repeat bit-width
times shifting left and adding one, in 64-bit unsigned arithmetic. -/
def bitWidthMask : Nat → Nat
  | 0 => 0
  | w + 1 => ((bitWidthMask w * 2) % 2 ^ 64 + 1) % 2 ^ 64

/-- Number of hex digits buildTableText computes for a bit width
(bitWidth / 4, plus one when bitWidth % 4 is nonzero). -/
def hexDigitCount (bw : Nat) : Nat := bw / 4 + (if bw % 4 ≠ 0 then 1 else 0)

/-- The uppercase hexadecimal digit character for a value below 16. -/
def hexDigitChar (d : Nat) : Char := "0123456789ABCDEF".toList.getD d '0'

/-- Digit-emitting recursion behind toHexUpper, with fuel bounding the
number of digits (64 is ample for 64-bit values). -/
def toHexCore : Nat → Nat → List Char
  | 0, _ => []
  | fuel + 1, n => if n < 16 then [hexDigitChar n] else toHexCore fuel (n / 16) ++ [hexDigitChar (n % 16)]

/-- Models the printf conversion %llX used by verilogNumberToHexString:
minimal-length uppercase hexadecimal, with a single 0 for the value zero. -/
def toHexUpper (n : Nat) : List Char := toHexCore 64 n

/-- Models String.padLeft(length, char) from PracticString.cpp: pad on the
left up to the target length, leaving longer strings unchanged. -/
def padLeft (target : Nat) (c : Char) (s : List Char) : List Char :=
  List.replicate (target - s.length) c ++ s

/-- Models verilogNumberToHexString from main.cpp: format with %llX and pad
on the left with zeros to the digit count. -/
def verilogNumberToHexString (n : Nat) (digitCount : Nat) : List Char :=
  padLeft digitCount '0' (toHexUpper n)

/-- Models String.removePrefix(cstring) from PracticString.cpp: drop the
substring from the front when it is a prefix, otherwise leave the string
unchanged.  The comparison mode of the defaulted EqualityMode argument is
declared in PracticString.h, which is not part of this repository snapshot;
per the design notes the removal is an exact case-sensitive prefix match,
which is what exact list equality gives. -/
def removePfx (name pfx : List Char) : List Char :=
  if pfx.isPrefixOf name then name.drop pfx.length else name

/-- A parsed name/value definition (struct Symbol in main.cpp). -/
structure Symbol where
  name : List Char
  value : Nat
deriving DecidableEq, Repr

/-- The line buildTableText appends for one symbol: the value masked to the
block bit width, formatted as padded uppercase hex, a space, the
prefix-stripped name and a newline - or nothing when stripping emptied the
name (the C++ then only logs a warning and drops the symbol). -/
def tableLine (bw : Nat) (pfx : List Char) (s : Symbol) : Option (List Char) :=
  let truncated := s.value &&& bitWidthMask bw
  let hex := verilogNumberToHexString truncated (hexDigitCount bw)
  let strippedName := removePfx s.name pfx
  if strippedName = [] then none
  else some (hex ++ Char.ofNat 32 :: (strippedName ++ [Char.ofNat 10]))

/-- Models buildTableText from main.cpp (the file and table name arguments
feed only console warnings, which are I/O and not part of the text
result). -/
def buildTableText (symbols : List Symbol) (bw : Nat) (pfx : List Char) : List Char :=
  symbols.foldl (fun text s =>
    match tableLine bw pfx s with
    | none => text
    | some l => text ++ l) []

/-- The extension given to generated table files (tableFileExtension in
main.cpp). -/
def tableFileExtensionChars : List Char := "txt".toList

/-- Models the file-name part of buildTableFilePath from main.cpp:
base name, dot, table name, dot, extension. -/
def buildTableFileName (base tname : List Char) : List Char :=
  base ++ '.' :: (tname ++ '.' :: tableFileExtensionChars)

/-- Accumulator pass behind dotParts, splitting on dots; mirrors repeated
String.nextPart calls with delimiter ".", no quoting characters and
ignoreEmpty false. -/
def dotPartsAux : List Char → List Char → List (List Char)
  | [], acc => [acc.reverse]
  | c :: rest, acc => if c = '.' then acc.reverse :: dotPartsAux rest [] else dotPartsAux rest (c :: acc)

/-- The parts String.partCount / String.part enumerate for delimiter ".":
dot-separated chunks, except that an empty chunk after a final trailing dot
is not produced (nextPart returns false once the cursor reaches the end of
the text) and the empty text has no parts. -/
def dotParts (cs : List Char) : List (List Char) :=
  if cs = [] then []
  else
    let ps := dotPartsAux cs []
    if ps.getLast? = some [] then ps.dropLast else ps

/-- Case-insensitive equality of character lists, modelling
stringsEqualIgnoreCase from PracticString.cpp (tolower both sides, equal
lengths required). -/
def eqCI (a b : List Char) : Bool := a.map toLowerChar == b.map toLowerChar

/-- Position of the last dot in a file name, if any. -/
def lastDotIndex (name : List Char) : Option Nat :=
  ((List.range name.length).filter (fun i => charAt name i = some '.')).getLast?

/-- Models std::filesystem::path::extension on a file name: the suffix from
the final dot, except that the names "." and ".." and a dot in leading
position (hidden files) yield no extension. -/
def pathExtension (name : List Char) : List Char :=
  if name = ".".toList ∨ name = "..".toList then []
  else
    match lastDotIndex name with
    | none => []
    | some 0 => []
    | some k => name.drop k

/-- Models extractFileNameWithoutExtension from main.cpp applied to the
file-name component of a path (std::filesystem stem): the name with its
extension removed. -/
def fileStem (name : List Char) : List Char :=
  name.take (name.length - (pathExtension name).length)

/-- Models isTableFileName from main.cpp: the tested file name splits on
dots into exactly three parts - the source file's base name (compared with
filePathEqualityMode = caseInsensitive), a nonempty table name, and the txt
extension (also compared case-insensitively). -/
def isTableFileName (tested verilogPath : List Char) : Bool :=
  let base := fileStem verilogPath
  let ps := dotParts tested
  decide (ps.length = 3) && eqCI (ps.getD 0 []) base &&
    !(decide (ps.getD 1 [] = [])) && eqCI (ps.getD 2 []) tableFileExtensionChars

/-- A directory entry as seen by std::filesystem::directory_iterator: its
file name and whether it is a regular file. -/
structure DirEntry where
  entryName : List Char
  isRegularFile : Bool
deriving DecidableEq, Repr

/-- Message thrown when deleting a stale table file fails
(cleanOutputDirectory in main.cpp). -/
def cantDeleteMsg (n err : List Char) : List Char :=
  "Can't delete file \"".toList ++ n ++ "\".\n".toList ++ err

/-- Models cleanOutputDirectory from main.cpp: walk the output directory
entries in order and delete every regular file whose name isTableFileName
accepts; a failing deletion throws.  The actual deletions are I/O, so the
possible failure of each is passed in as deleteError (none = the deletion
succeeds) and the function returns the names it deleted. -/
def cleanOutputDirectory (verilogPath : List Char) (deleteError : List Char → Option (List Char)) :
    List DirEntry → Except (List Char) (List (List Char))
  | [] => Except.ok []
  | e :: rest =>
    if e.isRegularFile && isTableFileName e.entryName verilogPath then
      match deleteError e.entryName with
      | some err => Except.error (cantDeleteMsg e.entryName err)
      | none =>
        match cleanOutputDirectory verilogPath deleteError rest with
        | Except.error m => Except.error m
        | Except.ok ds => Except.ok (e.entryName :: ds)
    else cleanOutputDirectory verilogPath deleteError rest

/-- The keyword whose occurrences mark candidate definition blocks
(localparam in moveToNextLocalParam, main.cpp). -/
def localparamKeyword : List Char := "localparam".toList

/-- Models moveToNextLocalParam from main.cpp: find the next occurrence of
the keyword at or after the cursor and move just past it; the move counts
only when that position is still inside the text. -/
def moveToNextLocalParam (text : List Char) (i : Nat) : Option Nat :=
  match indexOfFrom localparamKeyword text i with
  | none => none
  | some p =>
    let j := p + localparamKeyword.length
    if j < text.length then some j else none

/-- Models isTableNameChar from main.cpp: letters, digits and underscore
(the aChar > 0 guard excludes non-ASCII bytes, as Char.isAlphanum does). -/
def isTableNameChar (c : Char) : Bool := c.isAlphanum || c = '_'

/-- Models readHeaderTableName from main.cpp: a nonempty run of table-name
characters. -/
def readHeaderTableName (text : List Char) (i : Nat) : Option (List Char × Nat) :=
  let len := runLength isTableNameChar text i
  if len = 0 then none else some (slice text i len, i + len)

/-- Models readHeaderBitWidth from main.cpp: a nonempty decimal digit run
converted with tryStringToInt; on failure the cursor is untouched. -/
def readHeaderBitWidth (text : List Char) (i : Nat) : Option (Nat × Nat) :=
  let len := runLength (fun c => (radixChars 10).contains c) text i
  if len = 0 then none
  else
    match stoiDigits (slice text i len) with
    | none => none
    | some bw => some (bw, i + len)

/-- Models readRemovingPrefix from main.cpp: the maximal run of characters
that are neither whitespace nor line terminators, empty when there is
none. -/
def readRemovingPfx (text : List Char) (i : Nat) : List Char × Nat :=
  let len := runLength (fun c => !((whitespaceChars ++ newlineChars).contains c)) text i
  if len = 0 then ([], i) else (slice text i len, i + len)

/-- Decimal digit character for a value below 10. -/
def decDigitChar (d : Nat) : Char := "0123456789".toList.getD d '0'

/-- Digit-emitting recursion behind natToDec. -/
def natToDecCore : Nat → Nat → List Char
  | 0, _ => []
  | fuel + 1, n => if n < 10 then [decDigitChar n] else natToDecCore fuel (n / 10) ++ [decDigitChar (n % 10)]

/-- Decimal rendering of a natural number, as the printf conversion %d
renders the nonnegative int values that occur here. -/
def natToDec (n : Nat) : List Char := natToDecCore 64 n

/-- Message thrown by readHeader in main.cpp for a parsed header whose bit
width falls outside 1..verilogNumberMaxBitWidth. -/
def unsupportedSizeMsg (bw : Nat) (tname : List Char) : List Char :=
  "Unsupported size (".toList ++ natToDec bw ++ " bits) of \"".toList ++ tname ++
    "\" (size must be from 1 to 64 bits).".toList

/-- Models readHeader from main.cpp.  The C++ works on a local copy of the
cursor and writes it back only on success, so every required-step failure
returns false with the caller's cursor untouched; that is the ok none
result here.  Only after every required step has succeeded is the bit width
validated, where an out-of-range width throws.  On success the result
carries (tableName, bitWidth, removingPrefix) and the cursor past the
header's newline run. -/
def readHeader (text : List Char) (i : Nat) :
    Except (List Char) (Option ((List Char × Nat × List Char) × Nat)) :=
  let i1 := (skipChars (whitespaceChars ++ newlineChars) false text i).2
  let r2 := skipLineCommentStart text i1
  if !r2.1 then Except.ok none else
  let i3 := (skipChars whitespaceChars false text r2.2).2
  let r4 := skipChar ['$'] true text i3
  if !r4.1 then Except.ok none else
  match readHeaderTableName text r4.2 with
  | none => Except.ok none
  | some (tname, i5) =>
    let i6 := (skipChars whitespaceChars false text i5).2
    let r7 := skipChar [':'] true text i6
    if !r7.1 then Except.ok none else
    let i8 := (skipChars whitespaceChars false text r7.2).2
    match readHeaderBitWidth text i8 with
    | none => Except.ok none
    | some (bw, i9) =>
      let i10 := (skipChars whitespaceChars false text i9).2
      let rc := skipChar [','] true text i10
      let pr :=
        if rc.1 then
          let ic2 := (skipChars whitespaceChars false text rc.2).2
          let pp := readRemovingPfx text ic2
          (pp.1, (skipChars whitespaceChars false text pp.2).2)
        else (([] : List Char), i10)
      let rn := skipChars newlineChars true text pr.2
      if !rn.1 then Except.ok none else
      if bw < 1 ∨ verilogNumberMaxBitWidth < bw then
        Except.error (unsupportedSizeMsg bw tname)
      else Except.ok (some ((tname, bw, pr.1), rn.2))

/-- Models isIdentifierStartChar from main.cpp. -/
def isIdentifierStartChar (c : Char) : Bool := c.isAlpha || c = '_'

/-- Models isIdentifierInnerChar from main.cpp. -/
def isIdentifierInnerChar (c : Char) : Bool := c.isAlphanum || c = '_' || c = '$'

/-- Message thrown by readIdentifier for an escaped identifier. -/
def escapedIdentifierMsg : List Char := "Escaped identifiers are not supported.".toList

/-- Message thrown by readIdentifier when no identifier starts here. -/
def missingIdentifierMsg : List Char := "Missing or invalid identifier.".toList

/-- Models readIdentifier from main.cpp: reject a leading backslash, then
require an identifier start character followed by the maximal run of
identifier inner characters. -/
def readIdentifier (text : List Char) (i : Nat) : Except (List Char) (List Char × Nat) :=
  if charAt text i = some (Char.ofNat 92) then Except.error escapedIdentifierMsg
  else if containsAnyCharAt isIdentifierStartChar text i then
    let len := runLength isIdentifierInnerChar text (i + 1)
    Except.ok (slice text i (1 + len), i + 1 + len)
  else Except.error missingIdentifierMsg

/-- Message thrown by readSymbol when the equals sign is missing. -/
def expectedEqMsg : List Char :=
  "Unexpected end of the definition (expected \"=\" after identifier).".toList

/-- Message thrown by readSymbols when the final semicolon is missing. -/
def expectedSemicolonMsg : List Char :=
  "Unexpected end of the definition (expected \";\" after last value).".toList

/-- Models readSymbol from main.cpp: identifier, blank, equals sign, blank,
number literal.  The fuel feeds the skipBlank calls; none means a skipBlank
call failed to terminate within it. -/
def readSymbol (fuel : Nat) (text : List Char) (i : Nat) :
    Option (Except (List Char) (Symbol × Nat)) :=
  match readIdentifier text i with
  | Except.error e => some (Except.error e)
  | Except.ok (nm, i1) =>
    match skipBlank fuel text i1 with
    | none => none
    | some i2 =>
      match skipChar ['='] true text i2 with
      | (false, _) => some (Except.error expectedEqMsg)
      | (true, i3) =>
        match skipBlank fuel text i3 with
        | none => none
        | some i4 =>
          match readNumber text i4 with
          | Except.error e => some (Except.error e)
          | Except.ok (v, i5) => some (Except.ok (⟨nm, v⟩, i5))

/-- The context wrapper the catch block of readSymbols in main.cpp adds to
an error: the table name and the source text from the failed symbol's start
to the end of its line. -/
def symbolsContextMsg (tname text : List Char) (start : Nat) (e : List Char) : List Char :=
  let lenToEol := runLength (fun c => !(newlineChars.contains c)) text start
  "Can't parse definition of \"".toList ++ tname ++
    "\".\nCan't analyze source text \"".toList ++ slice text start lenToEol ++
    "\".\n".toList ++ e

/-- The do-while loop of readSymbols from main.cpp: skip blank, read one
symbol, skip blank, continue on a comma; after the loop, require a
semicolon.  Errors are wrapped by symbolsContextMsg with the current
symbol's start position.  The fuel bounds both the loop and the skipBlank
calls. -/
def readSymbolsLoop : Nat → List Char → List Char → Nat → List Symbol →
    Option (Except (List Char) (List Symbol × Nat))
  | 0, _, _, _, _ => none
  | fuel + 1, tname, text, i, acc =>
    match skipBlank (fuel + 1) text i with
    | none => none
    | some i1 =>
      match readSymbol (fuel + 1) text i1 with
      | none => none
      | some (Except.error e) => some (Except.error (symbolsContextMsg tname text i1 e))
      | some (Except.ok (sym, i2)) =>
        match skipBlank (fuel + 1) text i2 with
        | none => none
        | some i3 =>
          match skipChar [','] true text i3 with
          | (true, i4) => readSymbolsLoop fuel tname text i4 (acc ++ [sym])
          | (false, _) =>
            match skipChar [';'] true text i3 with
            | (true, i5) => some (Except.ok (acc ++ [sym], i5))
            | (false, _) => some (Except.error (symbolsContextMsg tname text i1 expectedSemicolonMsg))

/-- Models readSymbols from main.cpp, starting with an empty accumulator. -/
def readSymbols (fuel : Nat) (tname text : List Char) (i : Nat) :
    Option (Except (List Char) (List Symbol × Nat)) :=
  readSymbolsLoop fuel tname text i []

/-- Message thrown by checkMultipleDefinition in main.cpp. -/
def multipleDefinitionMsg (tname : List Char) : List Char :=
  "Multiple definition of \"".toList ++ tname ++ "\".".toList

/-- Models the scanning loop of extractSymbolsFromFile from main.cpp.
defined is the per-file set of table names already seen
(checkMultipleDefinition); written collects, in order, the (file name,
content) pairs passed to writeStringToFile, i.e. the files on disk.  An
error result carries the message together with the writes already
performed, since the C++ exception leaves previously written files in
place.  The fuel bounds the loop and the inner parsers; none = fuel ran
out. -/
def processBlocks : Nat → List Char → List Char → Nat → List (List Char) →
    List (List Char × List Char) →
    Option (Except (List Char × List (List Char × List Char)) (List (List Char × List Char)))
  | 0, _, _, _, _, _ => none
  | fuel + 1, base, text, i, defined, written =>
    match moveToNextLocalParam text i with
    | none => some (Except.ok written)
    | some k =>
      match readHeader text k with
      | Except.error e => some (Except.error (e, written))
      | Except.ok none => processBlocks fuel base text k defined written
      | Except.ok (some ((tname, bw, pfx), j)) =>
        if defined.contains tname then some (Except.error (multipleDefinitionMsg tname, written))
        else
          match readSymbols (fuel + 1) tname text j with
          | none => none
          | some (Except.error e) => some (Except.error (e, written))
          | some (Except.ok (syms, j2)) =>
            processBlocks fuel base text j2 (tname :: defined)
              (written ++ [(buildTableFileName base tname, buildTableText syms bw pfx)])

/-- The file-path context wrapper of the catch block in
extractSymbolsFromFile, main.cpp. -/
def problemWrapMsg (path e : List Char) : List Char :=
  "Problem when processing file \"".toList ++ path ++ "\".\n".toList ++ e

/-- Models extractSymbolsFromFile from main.cpp: first clean the output
directory - outside the try block, so a cleanup error propagates as is -
then scan the text from cursor 0 with no tables defined and no files
written, wrapping any error from that phase with the source file's path.
The cleanup's outcome is passed in (its directory listing and deletions are
I/O); text stands for the result of readStringFromFile. -/
def extractSymbolsFromFile (fuel : Nat) (path base text : List Char)
    (cleanupOutcome : Except (List Char) Unit) :
    Option (Except (List Char × List (List Char × List Char)) (List (List Char × List Char))) :=
  match cleanupOutcome with
  | Except.error e => some (Except.error (e, []))
  | Except.ok _ =>
    match processBlocks fuel base text 0 [] [] with
    | none => none
    | some (Except.ok w) => some (Except.ok w)
    | some (Except.error (e, w)) => some (Except.error (problemWrapMsg path e, w))

/-- The dispatch test of extractSymbolsFromDirectory from main.cpp: the
entry's extension, lowercased with std::tolower, equals ".v" or ".sv".
The C++ never asks whether the entry is a regular file. -/
def dispatchesEntry (e : DirEntry) : Bool :=
  let ext := (pathExtension e.entryName).map toLowerChar
  ext == ".v".toList || ext == ".sv".toList

/-- Models extractSymbolsFromDirectory from main.cpp: walk the directory
entries in order and run the per-file extraction on each dispatched entry;
the first error aborts the walk.  The per-file outcome is passed in
(fileOutcome); the result lists the entries processed. -/
def extractSymbolsFromDirectory (fileOutcome : DirEntry → Except (List Char) Unit) :
    List DirEntry → Except (List Char) (List DirEntry)
  | [] => Except.ok []
  | e :: rest =>
    if dispatchesEntry e then
      match fileOutcome e with
      | Except.error err => Except.error err
      | Except.ok _ =>
        match extractSymbolsFromDirectory fileOutcome rest with
        | Except.error m => Except.error m
        | Except.ok ps => Except.ok (e :: ps)
    else extractSymbolsFromDirectory fileOutcome rest

end SymbolEx

namespace SymbolEx

/-- For widths up to 64 the mask loop computes the all-low-ones mask without
wrapping. -/
lemma bitWidthMask_eq {w : Nat} (h : w ≤ 64) : bitWidthMask w = 2 ^ w - 1 := by
  induction w with
  | zero => rfl
  | succ n ih =>
    have hn : n ≤ 64 := by omega
    have hpow : 2 ^ (n + 1) ≤ 2 ^ 64 := Nat.pow_le_pow_right (by norm_num) h
    have hs : 2 ^ (n + 1) = 2 ^ n * 2 := by rw [Nat.pow_succ]
    have h1 : 1 ≤ 2 ^ n := Nat.one_le_two_pow
    have hm1 : (2 ^ n - 1) * 2 % 2 ^ 64 = (2 ^ n - 1) * 2 := Nat.mod_eq_of_lt (by omega)
    have hm2 : ((2 ^ n - 1) * 2 + 1) % 2 ^ 64 = (2 ^ n - 1) * 2 + 1 := Nat.mod_eq_of_lt (by omega)
    calc bitWidthMask (n + 1) = ((bitWidthMask n * 2) % 2 ^ 64 + 1) % 2 ^ 64 := rfl
      _ = (((2 ^ n - 1) * 2) % 2 ^ 64 + 1) % 2 ^ 64 := by rw [ih hn]
      _ = ((2 ^ n - 1) * 2 + 1) % 2 ^ 64 := by rw [hm1]
      _ = (2 ^ n - 1) * 2 + 1 := hm2
      _ = 2 ^ (n + 1) - 1 := by omega

/-- The hex conversion emits at most k digits for values below 16 ^ k. -/
lemma toHexCore_length : ∀ (fuel k n : Nat), n < 16 ^ k → 1 ≤ k → k ≤ fuel →
    (toHexCore fuel n).length ≤ k := by
  intro fuel
  induction fuel with
  | zero => intro k n _ h2 h3; omega
  | succ f ih =>
    intro k n h1 h2 _
    by_cases hn : n < 16
    · simp [toHexCore, hn]; omega
    · have hk2 : 2 ≤ k := by
        rcases Nat.lt_or_ge k 2 with hk | hk
        · have hk1 : k = 1 := by omega
          rw [hk1] at h1; simp at h1; omega
        · exact hk
      obtain ⟨k2, rfl⟩ : ∃ k2, k = k2 + 1 := ⟨k - 1, by omega⟩
      have hdiv : n / 16 < 16 ^ k2 := by
        have hx : n < 16 ^ k2 * 16 := by
          rw [← Nat.pow_succ]; exact h1
        exact (Nat.div_lt_iff_lt_mul (by norm_num)).2 hx
      have hlen := ih k2 (n / 16) hdiv (by omega) (by omega)
      simp [toHexCore, hn, List.length_append]
      omega

/-- Every hex digit character lies in the uppercase hex alphabet. -/
lemma hexDigitChar_mem (d : Nat) : hexDigitChar d ∈ "0123456789ABCDEF".toList := by
  unfold hexDigitChar
  by_cases h : d < 16
  · interval_cases d <;> decide
  · rw [List.getD_eq_default]
    · decide
    · simpa using h

/-- Every character the hex conversion emits lies in the uppercase hex
alphabet. -/
lemma toHexCore_mem : ∀ (fuel n : Nat) (c : Char), c ∈ toHexCore fuel n →
    c ∈ "0123456789ABCDEF".toList := by
  intro fuel
  induction fuel with
  | zero => intro n c hc; simp [toHexCore] at hc
  | succ f ih =>
    intro n c hc
    by_cases hn : n < 16
    · simp [toHexCore, hn] at hc
      rw [hc]; exact hexDigitChar_mem n
    · simp [toHexCore, hn] at hc
      rcases hc with hc | hc
      · exact ih _ _ hc
      · rw [hc]; exact hexDigitChar_mem (n % 16)

/-- C1: for every block bit width w in 1..64 and every symbol value, the
mask loop computes the all-ones mask of the low w bits, masking equals
reduction modulo 2 ^ w, the digit count is the ceiling of w / 4, the
formatted string has exactly that many characters, all of them uppercase
hexadecimal digits, and every line buildTableText emits starts with the hex
rendering of the masked value. -/
theorem emitted_value_masked_and_hex_padded (w v : Nat) (h1 : 1 ≤ w) (h2 : w ≤ 64) :
    bitWidthMask w = 2 ^ w - 1 ∧
    v &&& bitWidthMask w = v % 2 ^ w ∧
    hexDigitCount w = (w + 3) / 4 ∧
    (verilogNumberToHexString (v &&& bitWidthMask w) (hexDigitCount w)).length = (w + 3) / 4 ∧
    (∀ c ∈ verilogNumberToHexString (v &&& bitWidthMask w) (hexDigitCount w),
      c ∈ "0123456789ABCDEF".toList) ∧
    (∀ (pfx : List Char) (s : Symbol) (l : List Char), tableLine w pfx s = some l →
      (verilogNumberToHexString (s.value &&& bitWidthMask w) (hexDigitCount w)).isPrefixOf l = true) := by
  have hmask : bitWidthMask w = 2 ^ w - 1 := bitWidthMask_eq h2
  have hand : v &&& bitWidthMask w = v % 2 ^ w := by
    rw [hmask]; exact Nat.and_pow_two_sub_one_eq_mod v w
  have hcount : hexDigitCount w = (w + 3) / 4 := by
    unfold hexDigitCount; split <;> omega
  have hk1 : 1 ≤ (w + 3) / 4 := by omega
  have hk64 : (w + 3) / 4 ≤ 64 := by omega
  have hpow : 2 ^ w ≤ 16 ^ ((w + 3) / 4) := by
    have h4 : w ≤ 4 * ((w + 3) / 4) := by omega
    calc 2 ^ w ≤ 2 ^ (4 * ((w + 3) / 4)) := Nat.pow_le_pow_right (by norm_num) h4
      _ = (2 ^ 4) ^ ((w + 3) / 4) := by rw [Nat.pow_mul]
      _ = 16 ^ ((w + 3) / 4) := by norm_num
  have hlt : v % 2 ^ w < 16 ^ ((w + 3) / 4) :=
    lt_of_lt_of_le (Nat.mod_lt _ (Nat.pos_pow_of_pos w (by norm_num))) hpow
  have hlen : (toHexCore 64 (v % 2 ^ w)).length ≤ (w + 3) / 4 :=
    toHexCore_length 64 ((w + 3) / 4) (v % 2 ^ w) hlt hk1 hk64
  refine ⟨hmask, hand, hcount, ?_, ?_, ?_⟩
  · rw [hand, hcount]
    unfold verilogNumberToHexString padLeft toHexUpper
    simp [List.length_append, List.length_replicate]
    omega
  · intro c hc
    rw [hand, hcount] at hc
    unfold verilogNumberToHexString padLeft toHexUpper at hc
    rcases List.mem_append.1 hc with hc | hc
    · have := List.eq_of_mem_replicate hc
      rw [this]; decide
    · exact toHexCore_mem 64 (v % 2 ^ w) c hc
  · intro pfx s l hline
    unfold tableLine at hline
    by_cases hemp : removePfx s.name pfx = []
    · simp [hemp] at hline
    · simp [hemp] at hline
      rw [← hline]
      exact List.isPrefixOf_iff_prefix.2 (List.prefix_append _ _)

/-- C1 witness: the theorem instantiated at bit width 7 and value 300
(whose masked value is 0x2C, printed with two hex digits). -/
theorem emitted_value_masked_and_hex_padded_witness :
    (verilogNumberToHexString (300 &&& bitWidthMask 7) (hexDigitCount 7)).length = (7 + 3) / 4 ∧
    300 &&& bitWidthMask 7 = 300 % 2 ^ 7 :=
  ⟨(emitted_value_masked_and_hex_padded 7 300 (by decide) (by decide)).2.2.2.1,
   (emitted_value_masked_and_hex_padded 7 300 (by decide) (by decide)).2.1⟩

/-- C3 counterexample: on the radix-2 literal text b12 (with leading
apostrophe) the number parser succeeds with value 1 and consumes all four
characters, although the digit run it accepted contains the character 2,
which is neither a binary digit nor the underscore separator - refuting the
claim that the accepted digit run consists only of characters of the
declared radix (under which this input would have to fail). -/
theorem radix_literal_accepts_foreign_digits :
    readNumber "'b12".toList 0 = Except.ok (1, 4) ∧
    numberGrammarUnsized "'b12".toList 0 = some (32, 2, "12".toList, 4) ∧
    '2' ∈ "12".toList ∧ '2' ∉ radixChars 2 ∧ ¬ ('2' = '_') := by
  refine ⟨by decide, by decide, by decide, by decide, by decide⟩

/-- C3 amended: the digit run readNumberValue accepts is the maximal run
drawn from the radix-16 character set plus underscore, independent of the
declared radix, with underscores discarded before conversion; and
readNumber fails exactly when none of the three grammars matches, or the
declared bit width lies outside 1..64, or stoull cannot convert the digit
run in the declared radix (which converts the longest radix-valid leading
run and fails when it is empty or its value needs more than 64 bits). -/
theorem readNumber_failure_characterization (text : List Char) (i : Nat) :
    (∀ vt j, readNumberValue text i = some (vt, j) →
      (∀ c ∈ vt, c ∈ radixChars 16) ∧
      vt = ((text.drop i).takeWhile
        (fun c => (radixChars 16 ++ ['_']).contains c)).filter (fun c => c ≠ '_') ∧
      j = i + ((text.drop i).takeWhile
        (fun c => (radixChars 16 ++ ['_']).contains c)).length) ∧
    ((numberGrammarSized text i <|> numberGrammarUnsized text i <|> numberGrammarPlain text i) = none →
      readNumber text i = Except.error numberErrorMsg) ∧
    (∀ bw radix vt j,
      (numberGrammarSized text i <|> numberGrammarUnsized text i <|> numberGrammarPlain text i) =
        some (bw, radix, vt, j) →
      ((readNumber text i).isOk = false ↔ (bw < 1 ∨ 64 < bw ∨ stoullDigits vt radix = none))) := by
  refine ⟨?_, ?_, ?_⟩
  · intro vt j hv
    simp only [readNumberValue] at hv
    by_cases hlen : runLength (fun c => (radixChars 16 ++ ['_']).contains c) text i = 0
    · rw [if_pos hlen] at hv
      exact Option.noConfusion hv
    · rw [if_neg hlen] at hv
      injection hv with hpair
      obtain ⟨h1, h2⟩ := Prod.mk.inj hpair
      subst h1
      subst h2
      have hslice : slice text i (runLength (fun c => (radixChars 16 ++ ['_']).contains c) text i) =
          (text.drop i).takeWhile (fun c => (radixChars 16 ++ ['_']).contains c) := by
        unfold slice runLength
        exact (List.prefix_iff_eq_take.1 (List.takeWhile_prefix _)).symm
      refine ⟨?_, ?_, ?_⟩
      · intro c hc
        rw [hslice] at hc
        have hc2 := List.mem_filter.1 hc
        have hpc := List.mem_takeWhile_imp hc2.1
        have hmem : c ∈ radixChars 16 ∨ c = '_' := by simpa using hpc
        rcases hmem with hm | hm
        · exact hm
        · simp [hm] at hc2
      · rw [hslice]
      · unfold runLength
        rfl
  · intro h
    simp [readNumber, h]
  · intro bw radix vt j h
    simp only [readNumber, h]
    have hmax : verilogNumberMaxBitWidth = 64 := rfl
    by_cases hbw : bw < 1 ∨ verilogNumberMaxBitWidth < bw
    · rw [if_pos hbw]
      rw [hmax] at hbw
      simp [Except.isOk, Except.toBool]
      rcases hbw with h1 | h1
      · exact Or.inl (by omega)
      · exact Or.inr (Or.inl h1)
    · rw [if_neg hbw]
      rw [hmax] at hbw
      cases hstoull : stoullDigits vt radix with
      | none => simp [Except.isOk, Except.toBool]
      | some v =>
        simp [Except.isOk, Except.toBool]
        omega

/-- C3 amended witness: the characterization applied to the radix-2
literal with digit run 0123 starting at cursor 0: the parser does not fail
there (the longest binary-valid leading run 01 converts to 1). -/
theorem readNumber_failure_characterization_witness :
    (readNumber "'b0123".toList 0).isOk = false ↔
      (32 < 1 ∨ 64 < 32 ∨ stoullDigits "0123".toList 2 = none) :=
  (readNumber_failure_characterization "'b0123".toList 0).2.2 32 2 "0123".toList 6 (by decide)

/-- A successful keyword move lands just past the first occurrence of the
keyword at or after the cursor, still inside the text. -/
lemma moveToNextLocalParam_eq_some {text : List Char} {i k : Nat}
    (h : moveToNextLocalParam text i = some k) :
    ∃ p, indexOfFrom localparamKeyword text i = some p ∧
      k = p + localparamKeyword.length ∧ k < text.length := by
  simp only [moveToNextLocalParam] at h
  split at h
  · exact Option.noConfusion h
  · rename_i p hidx
    split at h
    · rename_i hlt
      injection h with h
      exact ⟨p, hidx, h.symm, by omega⟩
    · exact Option.noConfusion h

/-- C4: when the keyword search succeeds and the subsequent header attempt
fails, the keyword position was the first occurrence at or after the
scanning cursor with the landing point just past the keyword and inside the
text, the orchestrator loop continues from exactly that landing point with
its state (defined tables, written files) unchanged, and moreover the
header parser never raises a fatal error for a required-step failure: its
only error is the bit-width validation message for a fully parsed
header. -/
theorem failed_header_resumes_scan_after_keyword (fuel : Nat) (base text : List Char)
    (i k : Nat) (defined : List (List Char)) (written : List (List Char × List Char))
    (h1 : moveToNextLocalParam text i = some k)
    (h2 : readHeader text k = Except.ok none) :
    (∃ p, indexOfFrom localparamKeyword text i = some p ∧
      k = p + localparamKeyword.length ∧ k < text.length) ∧
    processBlocks (fuel + 1) base text i defined written =
      processBlocks fuel base text k defined written ∧
    (∀ (j : Nat) (e : List Char), readHeader text j = Except.error e →
      ∃ bw tname, (bw < 1 ∨ verilogNumberMaxBitWidth < bw) ∧ e = unsupportedSizeMsg bw tname) := by
  refine ⟨moveToNextLocalParam_eq_some h1, ?_, ?_⟩
  · simp only [processBlocks, h1, h2]
  · intro j e h
    simp only [readHeader] at h
    iterate 12 (all_goals (try split at h))
    all_goals first
      | exact Except.noConfusion h
      | (injection h with he; exact ⟨_, _, by assumption, he.symm⟩)

/-- C4 witness: on the text localparam x (whose header attempt fails at the
missing line-comment marker) the loop at cursor 0 continues from position
10, just past the keyword. -/
theorem failed_header_resumes_scan_after_keyword_witness :
    processBlocks 4 [] "localparam x".toList 0 [] [] =
      processBlocks 3 [] "localparam x".toList 10 [] [] :=
  (failed_header_resumes_scan_after_keyword 3 [] "localparam x".toList 0 10 [] []
    (by decide) (by decide)).2.1

/-- The table-building fold is the concatenation of the per-symbol lines,
in declaration order, with the empty-name symbols dropped. -/
lemma buildTableText_foldl (bw : Nat) (pfx : List Char) :
    ∀ (l : List Symbol) (acc : List Char),
      l.foldl (fun text s =>
        match tableLine bw pfx s with
        | none => text
        | some ln => text ++ ln) acc = acc ++ (l.filterMap (tableLine bw pfx)).flatten := by
  intro l
  induction l with
  | nil => intro acc; simp
  | cons s rest ih =>
    intro acc
    cases hline : tableLine bw pfx s with
    | none => simp [List.foldl_cons, hline, List.filterMap_cons, ih]
    | some ln => simp [List.foldl_cons, hline, List.filterMap_cons, ih, List.append_assoc]

/-- C8: the removing prefix is stripped only as an exact case-sensitive
prefix match, an empty prefix leaves the name unchanged, the built table
text is exactly the concatenation of the lines of the symbols whose
stripped name is nonempty, and every emitted line carries a nonempty
stripped name - a blank-name line is never emitted. -/
theorem prefix_stripped_exactly_and_blank_names_omitted
    (symbols : List Symbol) (bw : Nat) (pfx nm : List Char) :
    removePfx nm [] = nm ∧
    (pfx.isPrefixOf nm = true → removePfx nm pfx = nm.drop pfx.length) ∧
    (pfx.isPrefixOf nm = false → removePfx nm pfx = nm) ∧
    buildTableText symbols bw pfx = (symbols.filterMap (tableLine bw pfx)).flatten ∧
    (∀ l ∈ symbols.filterMap (tableLine bw pfx), ∃ s, s ∈ symbols ∧
      removePfx s.name pfx ≠ [] ∧
      l = verilogNumberToHexString (s.value &&& bitWidthMask bw) (hexDigitCount bw) ++
        Char.ofNat 32 :: (removePfx s.name pfx ++ [Char.ofNat 10])) := by
  refine ⟨?_, ?_, ?_, ?_, ?_⟩
  · simp [removePfx, List.isPrefixOf]
  · intro h; simp [removePfx, h]
  · intro h; simp [removePfx, h]
  · unfold buildTableText
    exact (buildTableText_foldl bw pfx symbols []).trans (by simp)
  · intro l hl
    obtain ⟨s, hs, hline⟩ := List.mem_filterMap.1 hl
    by_cases hemp : removePfx s.name pfx = []
    · simp [tableLine, hemp] at hline
    · simp only [tableLine, if_neg hemp] at hline
      injection hline with hline
      exact ⟨s, hs, hemp, hline.symm⟩

/-- C8 witness: stripping the prefix s from the symbol name sIdle drops
exactly the one-character prefix. -/
theorem prefix_stripped_exactly_and_blank_names_omitted_witness :
    removePfx "sIdle".toList "s".toList = "sIdle".toList.drop "s".toList.length :=
  (prefix_stripped_exactly_and_blank_names_omitted [] 4 "s".toList "sIdle".toList).2.1 (by decide)

/-- C6: when a successfully parsed header carries a table name already in
the file's set of defined table names, the scanning loop stops with the
multiple-definition error, and the error state carries exactly the files
already written - nothing is rolled back. -/
theorem duplicate_table_name_fatal_preserves_writes (fuel : Nat) (base text : List Char)
    (i k : Nat) (tname : List Char) (bw j : Nat) (pfx : List Char)
    (defined : List (List Char)) (written : List (List Char × List Char))
    (h1 : moveToNextLocalParam text i = some k)
    (h2 : readHeader text k = Except.ok (some ((tname, bw, pfx), j)))
    (h3 : defined.contains tname = true) :
    processBlocks (fuel + 1) base text i defined written =
      some (Except.error (multipleDefinitionMsg tname, written)) := by
  have h3m : tname ∈ defined := by simpa using h3
  simp [processBlocks, h1, h2, h3m]

/-- C6 witness: a file text with the block T defined twice; applied with
the second block's header and the state after the first block, and checked
against the whole run from cursor 0, whose error keeps the first block's
written file on disk. -/
theorem duplicate_table_name_fatal_preserves_writes_witness :
    processBlocks 21 "f".toList "localparam // $T:4\na=1; localparam // $T:4\na=1;".toList
        0 ["T".toList] [] = some (Except.error (multipleDefinitionMsg "T".toList, [])) ∧
    processBlocks 30 "f".toList "localparam // $T:4\na=1; localparam // $T:4\na=1;".toList
        0 [] [] =
      some (Except.error (multipleDefinitionMsg "T".toList,
        [("f.T.txt".toList, "1 a\n".toList)])) :=
  ⟨duplicate_table_name_fatal_preserves_writes 20 "f".toList
      "localparam // $T:4\na=1; localparam // $T:4\na=1;".toList
      0 10 "T".toList 4 19 [] ["T".toList] [] (by decide) (by decide) (by decide),
   by decide⟩

/-- C10: whenever a block's header and symbol list both parse, the loop
appends the (file name, table text) pair to the written files
unconditionally, before continuing after the block - even when the table
text is empty. -/
theorem parsed_block_always_written (fuel : Nat) (base text : List Char)
    (i k : Nat) (tname : List Char) (bw j : Nat) (pfx : List Char)
    (syms : List Symbol) (j2 : Nat)
    (defined : List (List Char)) (written : List (List Char × List Char))
    (h1 : moveToNextLocalParam text i = some k)
    (h2 : readHeader text k = Except.ok (some ((tname, bw, pfx), j)))
    (h3 : defined.contains tname = false)
    (h4 : readSymbols (fuel + 1) tname text j = some (Except.ok (syms, j2))) :
    processBlocks (fuel + 1) base text i defined written =
      processBlocks fuel base text j2 (tname :: defined)
        (written ++ [(buildTableFileName base tname, buildTableText syms bw pfx)]) := by
  have h3m : tname ∉ defined := by simpa using h3
  simp [processBlocks, h1, h2, h3m, h4]

/-- C10 witness: a block whose only symbol name equals the removing prefix,
so the built table text is empty; the step equation applied there, and the
whole run from cursor 0 writing the empty output file. -/
theorem parsed_block_always_written_witness :
    processBlocks 21 "f".toList "localparam // $T:1,s\ns=0;".toList 0 [] [] =
      processBlocks 20 "f".toList "localparam // $T:1,s\ns=0;".toList 25 ["T".toList]
        [("f.T.txt".toList, buildTableText [⟨"s".toList, 0⟩] 1 "s".toList)] ∧
    buildTableText [⟨"s".toList, 0⟩] 1 "s".toList = [] ∧
    processBlocks 21 "f".toList "localparam // $T:1,s\ns=0;".toList 0 [] [] =
      some (Except.ok [("f.T.txt".toList, [])]) :=
  ⟨by
    have h := parsed_block_always_written 20 "f".toList
      "localparam // $T:1,s\ns=0;".toList 0 10 "T".toList 1 21 "s".toList
      [⟨"s".toList, 0⟩] 25 [] [] (by decide) (by decide) (by decide) (by decide)
    simpa using h,
   by decide, by decide⟩

/-- Splitting a dot-free chunk yields one part. -/
lemma dotPartsAux_no_dot : ∀ (p acc : List Char), (∀ c ∈ p, c ≠ '.') →
    dotPartsAux p acc = [acc.reverse ++ p] := by
  intro p
  induction p with
  | nil => intro acc _; simp [dotPartsAux]
  | cons c rest ih =>
    intro acc h
    have hc : c ≠ '.' := h c (by simp)
    simp only [dotPartsAux, if_neg hc]
    rw [ih (c :: acc) (fun x hx => h x (by simp [hx]))]
    simp

/-- Splitting a dot-free chunk followed by a dot produces that chunk and
continues after the dot. -/
lemma dotPartsAux_dot_split : ∀ (p r acc : List Char), (∀ c ∈ p, c ≠ '.') →
    dotPartsAux (p ++ '.' :: r) acc = (acc.reverse ++ p) :: dotPartsAux r [] := by
  intro p
  induction p with
  | nil => intro r acc _; simp [dotPartsAux]
  | cons c rest ih =>
    intro r acc h
    have hc : c ≠ '.' := h c (by simp)
    simp only [List.cons_append, dotPartsAux, if_neg hc, List.append_eq]
    rw [ih r (c :: acc) (fun x hx => h x (by simp [hx]))]
    simp

/-- A name built from three dot-free chunks around two dots, with the last
chunk nonempty, splits into exactly those three parts. -/
lemma dotParts_three {p0 p1 p2 : List Char}
    (h0 : ∀ c ∈ p0, c ≠ '.') (h1 : ∀ c ∈ p1, c ≠ '.') (h2 : ∀ c ∈ p2, c ≠ '.')
    (hne : p2 ≠ []) :
    dotParts (p0 ++ '.' :: (p1 ++ '.' :: p2)) = [p0, p1, p2] := by
  have hcs : p0 ++ '.' :: (p1 ++ '.' :: p2) ≠ [] := by simp
  unfold dotParts
  rw [if_neg hcs]
  rw [dotPartsAux_dot_split p0 _ [] h0, dotPartsAux_dot_split p1 p2 [] h1,
    dotPartsAux_no_dot p2 [] h2]
  simp only [List.reverse_nil, List.nil_append]
  rw [if_neg]
  intro hcon
  simp at hcon
  exact hne hcon

/-- Every regular entry accepted by isTableFileName appears among the names
a successful cleanup deleted. -/
lemma clean_deletes_matching : ∀ (entries : List DirEntry) (path : List Char)
    (del : List Char → Option (List Char)) (ds : List (List Char)) (e : DirEntry),
    cleanOutputDirectory path del entries = Except.ok ds →
    e ∈ entries → e.isRegularFile = true → isTableFileName e.entryName path = true →
    e.entryName ∈ ds := by
  intro entries
  induction entries with
  | nil => intro path del ds e _ he; simp at he
  | cons a rest ih =>
    intro path del ds e hclean he hreg hmatch
    rcases List.mem_cons.1 he with rfl | he2
    · simp only [cleanOutputDirectory, hreg, hmatch, Bool.and_self, if_true] at hclean
      cases hdel : del e.entryName with
      | some err => rw [hdel] at hclean; exact Except.noConfusion hclean
      | none =>
        rw [hdel] at hclean
        cases hrest : cleanOutputDirectory path del rest with
        | error m => rw [hrest] at hclean; exact Except.noConfusion hclean
        | ok ds2 =>
          rw [hrest] at hclean
          injection hclean with hclean
          rw [← hclean]
          simp
    · simp only [cleanOutputDirectory] at hclean
      by_cases hcond : (a.isRegularFile && isTableFileName a.entryName path) = true
      · rw [if_pos hcond] at hclean
        cases hdel : del a.entryName with
        | some err => rw [hdel] at hclean; exact Except.noConfusion hclean
        | none =>
          rw [hdel] at hclean
          cases hrest : cleanOutputDirectory path del rest with
          | error m => rw [hrest] at hclean; exact Except.noConfusion hclean
          | ok ds2 =>
            rw [hrest] at hclean
            injection hclean with hclean
            rw [← hclean]
            exact List.mem_cons_of_mem _ (ih path del ds2 e hrest he2 hreg hmatch)
      · rw [if_neg hcond] at hclean
        exact ih path del ds e hclean he2 hreg hmatch

/-- C5 counterexample: for the source file a.v (base name a), the regular
output-directory entry a.b.c.txt matches the claimed pattern
base dot anything-nonempty dot txt - with the nonempty middle b.c - yet
isTableFileName rejects it (it splits into four dot-parts, not three) and a
cleanup run deletes nothing. -/
theorem stale_output_matching_pattern_not_deleted :
    ("a.b.c.txt".toList = "a".toList ++ '.' :: ("b.c".toList ++ '.' :: "txt".toList)) ∧
    "b.c".toList ≠ [] ∧
    fileStem "a.v".toList = "a".toList ∧
    isTableFileName "a.b.c.txt".toList "a.v".toList = false ∧
    cleanOutputDirectory "a.v".toList (fun _ => none) [⟨"a.b.c.txt".toList, true⟩] =
      Except.ok [] := by
  refine ⟨by decide, by decide, by decide, by decide, by decide⟩

/-- C5 amended: every regular file in the output directory whose name is
base-name dot middle dot txt, with all three chunks dot-free, the base name
and txt compared case-insensitively, and the middle nonempty, is deleted by
a successful cleanup - unconditionally, independent of which tables the
source still defines (the cleanup never consults them). -/
theorem stale_table_files_deleted (entries : List DirEntry) (path : List Char)
    (del : List Char → Option (List Char)) (ds : List (List Char))
    (e : DirEntry) (p0 p1 p2 : List Char)
    (hmem : e ∈ entries) (hreg : e.isRegularFile = true)
    (hname : e.entryName = p0 ++ '.' :: (p1 ++ '.' :: p2))
    (h0 : ∀ c ∈ p0, c ≠ '.') (h1 : ∀ c ∈ p1, c ≠ '.') (h2 : ∀ c ∈ p2, c ≠ '.')
    (hbase : eqCI p0 (fileStem path) = true) (hp1 : p1 ≠ [])
    (hext : eqCI p2 tableFileExtensionChars = true)
    (hclean : cleanOutputDirectory path del entries = Except.ok ds) :
    isTableFileName e.entryName path = true ∧ e.entryName ∈ ds := by
  have hp2 : p2 ≠ [] := by
    intro hcon
    rw [hcon] at hext
    exact absurd hext (by decide)
  have hmatch : isTableFileName e.entryName path = true := by
    rw [hname]
    unfold isTableFileName
    rw [dotParts_three h0 h1 h2 hp2]
    simp [hbase, hext, hp1]
  exact ⟨hmatch, clean_deletes_matching entries path del ds e hclean hmem hreg hmatch⟩

/-- C5 witness: the stale file A.State.TXT for source a.v (differing case
in base name and extension) is deleted by the cleanup. -/
theorem stale_table_files_deleted_witness :
    isTableFileName "A.State.TXT".toList "a.v".toList = true ∧
    "A.State.TXT".toList ∈ ["A.State.TXT".toList] :=
  stale_table_files_deleted [⟨"A.State.TXT".toList, true⟩] "a.v".toList (fun _ => none)
    ["A.State.TXT".toList] ⟨"A.State.TXT".toList, true⟩
    "A".toList "State".toList "TXT".toList
    (by decide) (by decide) (by decide) (by decide) (by decide) (by decide)
    (by decide) (by decide) (by decide) (by decide)

/-- C7 counterexample: a directory entry named sub.v that is not a regular
file (a subdirectory) is nevertheless dispatched to the per-file
extraction, refuting the claim that dispatch requires a regular file. -/
theorem directory_entry_dispatched_without_regular_check :
    dispatchesEntry ⟨"sub.v".toList, false⟩ = true ∧
    (⟨"sub.v".toList, false⟩ : DirEntry).isRegularFile = false ∧
    extractSymbolsFromDirectory (fun _ => Except.ok ()) [⟨"sub.v".toList, false⟩] =
      Except.ok [⟨"sub.v".toList, false⟩] := by
  refine ⟨by decide, by decide, by decide⟩

/-- C7 amended: dispatch depends only on the entry's name - its lowercased
extension being .v or .sv - never on whether the entry is a regular file;
the dispatched entries are processed strictly sequentially in directory
order, and the first fatal error aborts the whole walk. -/
theorem directory_dispatch_by_extension_only
    (outcome : DirEntry → Except (List Char) Unit) (pre post : List DirEntry)
    (e : DirEntry) (err : List Char) (nm : List Char) (b b2 : Bool) :
    dispatchesEntry ⟨nm, b⟩ = dispatchesEntry ⟨nm, b2⟩ ∧
    ((∀ x ∈ pre, dispatchesEntry x = true → outcome x = Except.ok ()) →
      extractSymbolsFromDirectory outcome pre = Except.ok (pre.filter dispatchesEntry)) ∧
    ((∀ x ∈ pre, dispatchesEntry x = true → outcome x = Except.ok ()) →
      dispatchesEntry e = true → outcome e = Except.error err →
      extractSymbolsFromDirectory outcome (pre ++ e :: post) = Except.error err) := by
  refine ⟨rfl, ?_, ?_⟩
  · intro hok
    induction pre with
    | nil => simp [extractSymbolsFromDirectory]
    | cons a rest ih =>
      have hrest := ih (fun x hx hd => hok x (by simp [hx]) hd)
      by_cases hd : dispatchesEntry a = true
      · have ha := hok a (by simp) hd
        simp [extractSymbolsFromDirectory, hd, ha, hrest, List.filter_cons]
      · simp [extractSymbolsFromDirectory, hd, hrest, List.filter_cons]
  · intro hok hde herr
    induction pre with
    | nil => simp [extractSymbolsFromDirectory, hde, herr]
    | cons a rest ih =>
      have hrest := ih (fun x hx hd => hok x (by simp [hx]) hd)
      by_cases hd : dispatchesEntry a = true
      · have ha := hok a (by simp) hd
        simp [extractSymbolsFromDirectory, hd, ha, hrest]
      · simp [extractSymbolsFromDirectory, hd, hrest]

/-- C7 amended witness: a directory with one ignored entry (README.md), one
successfully processed source file (a.SV, matched case-insensitively), and
a failing source file b.v; the walk processes a.SV, aborts at b.v with its
error, and never reaches the trailing c.v entry. -/
theorem directory_dispatch_by_extension_only_witness :
    extractSymbolsFromDirectory
      (fun x => if x.entryName = "b.v".toList then Except.error "boom".toList else Except.ok ())
      ([⟨"README.md".toList, true⟩, ⟨"a.SV".toList, true⟩] ++
        ⟨"b.v".toList, true⟩ :: [⟨"c.v".toList, true⟩]) = Except.error "boom".toList :=
  (directory_dispatch_by_extension_only
      (fun x => if x.entryName = "b.v".toList then Except.error "boom".toList else Except.ok ())
      [⟨"README.md".toList, true⟩, ⟨"a.SV".toList, true⟩] [⟨"c.v".toList, true⟩]
      ⟨"b.v".toList, true⟩ "boom".toList [] true true).2.2
    (by decide) (by decide) (by decide)

/-- C9 counterexample: a failed deletion during cleanup aborts the file's
processing with the cleanup message as is; the message is never of the
wrapped form, since the wrapper always begins with the text
Problem when processing file while the cleanup message begins with
Can't delete file. -/
theorem cleanup_error_escapes_unwrapped :
    extractSymbolsFromFile 5 "dir/file.v".toList "file".toList []
        (Except.error (cantDeleteMsg "file.T.txt".toList "permission denied".toList)) =
      some (Except.error
        (cantDeleteMsg "file.T.txt".toList "permission denied".toList, [])) ∧
    (∀ e, cantDeleteMsg "file.T.txt".toList "permission denied".toList ≠
      problemWrapMsg "dir/file.v".toList e) := by
  constructor
  · decide
  · intro e h
    have h1 : (cantDeleteMsg "file.T.txt".toList "permission denied".toList).head? =
        some 'C' := by decide
    have h2 : (problemWrapMsg "dir/file.v".toList e).head? = some 'P' := rfl
    rw [h, h2] at h1
    simp at h1

/-- C9 amended: every fatal error raised inside the scanning phase of one
source file (header validation, symbol parsing, duplicate tables) is
wrapped with that file's path, with the files already written preserved;
a failure to delete a stale output during cleanup, however, happens before
the try block and propagates unwrapped. -/
theorem file_errors_wrapped_except_cleanup (fuel : Nat) (path base text e0 : List Char) :
    (∀ e w, processBlocks fuel base text 0 [] [] = some (Except.error (e, w)) →
      extractSymbolsFromFile fuel path base text (Except.ok ()) =
        some (Except.error (problemWrapMsg path e, w))) ∧
    extractSymbolsFromFile fuel path base text (Except.error e0) =
      some (Except.error (e0, [])) := by
  constructor
  · intro e w h
    simp [extractSymbolsFromFile, h]
  · rfl

/-- C9 amended witness: a header with bit width 99 makes the scan fail, and
the file-level result carries the path-wrapped message. -/
theorem file_errors_wrapped_except_cleanup_witness :
    extractSymbolsFromFile 2 "p.v".toList "p".toList "localparam // $T:99\n".toList
        (Except.ok ()) =
      some (Except.error
        (problemWrapMsg "p.v".toList (unsupportedSizeMsg 99 "T".toList), [])) :=
  (file_errors_wrapped_except_cleanup 2 "p.v".toList "p".toList
      "localparam // $T:99\n".toList []).1
    (unsupportedSizeMsg 99 "T".toList) [] (by decide)

/-- C2: on the text consisting of an unterminated block comment opener, the
general-comment skipper reports success without moving the cursor, the
skipBlank loop body therefore reports progress while leaving the state
unchanged, and no amount of fuel makes the loop terminate: the C++
skipBlank spins forever instead of failing with an unterminated-comment
error. -/
theorem skipBlank_unterminated_comment_diverges :
    skipGeneralComment "/*".toList 0 = (true, 0) ∧
    skipBlankBody "/*".toList 0 = (true, 0) ∧
    ∀ fuel, skipBlank fuel "/*".toList 0 = none := by
  refine ⟨by decide, by decide, ?_⟩
  intro fuel
  induction fuel with
  | zero => rfl
  | succ n ih =>
    have hbody : skipBlankBody ['/', '*'] 0 = (true, 0) := by decide
    have ih2 : skipBlank n ['/', '*'] 0 = none := by simpa using ih
    simp [skipBlank, hbody, ih2]

end SymbolEx
